import Mathlib

/-!
Shallow embedding of the incremental event reconciliation engine of the
Discord NFT sales bot (`bot.py`): the dedup ledger (`known_sales` /
`known_mints` / `known_burns` lists with `save_ids` / `load_ids` /
`is_valid_id_format`), the per-token cooldown map, and the per-pass
processing functions (`check_activities_for_collection`,
`process_trade_activities`, `process_mint_activities`,
`process_burn_activities`, `process_opensea_sale_events`).

Strings are modelled with Lean `String` (Python string comparison is
code-point lexicographic, as in Lean); Python `dict` state is modelled
with association lists; the clock (`int(time.time())`) is a parameter
`now` supplied once per pass; file contents are plain `String`s.
-/

set_option maxRecDepth 100000

namespace NftBot

/-- Whitespace characters stripped by Python `str.strip()`. -/
def isPySpace (c : Char) : Bool :=
  c = ' ' || c = '\t' || c = '\n' || c = '\r' || c = '\x0b' || c = '\x0c'

/-- Strip leading and trailing whitespace from a line, as `line.strip()`. -/
def pyStripChars (l : List Char) : List Char :=
  ((l.dropWhile isPySpace).reverse.dropWhile isPySpace).reverse

/-- Split file content into lines at newline characters, as iterating a
Python text file yields its lines. -/
def splitLines : List Char → List (List Char)
  | [] => [[]]
  | c :: rest =>
    if c = '\n' then [] :: splitLines rest
    else
      match splitLines rest with
      | [] => [[c]]
      | l :: ls => (c :: l) :: ls

/-- Split a line at its first hyphen, as Python `line.split("-", 1)`. -/
def splitFirstHyphen : List Char → Option (List Char × List Char)
  | [] => none
  | c :: rest =>
    if c = '-' then some ([], rest)
    else (splitFirstHyphen rest).map (fun p => (c :: p.1, p.2))

/-- Character-level body of `is_valid_id_format`: the line must contain a
hyphen, the part before the first hyphen must be a nonempty digit string,
and the part after it must start with `"0x"`. -/
def validIdChars (l : List Char) : Bool :=
  match splitFirstHyphen l with
  | none => false
  | some (t, h) =>
    (decide (t ≠ []) && t.all Char.isDigit) &&
    (match h with
     | '0' :: c :: _ => c = 'x'
     | _ => false)

/-- `is_valid_id_format` from the source (bot.py lines 128-137). -/
def is_valid_id_format (line : String) : Bool :=
  validIdChars line.data

/-- File content written by `save_ids`: each id followed by a newline. -/
def saveChars : List (List Char) → List Char
  | [] => []
  | id :: rest => id ++ '\n' :: saveChars rest

/-- `save_ids` from the source (bot.py lines 160-164), as the file content
it writes. -/
def save_ids (ids : List String) : String :=
  String.mk (saveChars (ids.map String.data))

/-- The nonempty stripped lines of a file content, as in `load_ids`. -/
def loadLinesChars (content : List Char) : List (List Char) :=
  ((splitLines content).map pyStripChars).filter (fun l => !l.isEmpty)

/-- `load_ids` from the source (bot.py lines 139-158), over the file
content: returns the cleaned id sequence, together with the re-persisted
content when invalid entries were pruned (`none` when nothing was pruned).
A missing file is represented by the empty content. -/
def load_ids (content : String) : List String × Option String :=
  let lines := (loadLinesChars content.data).map String.mk
  let cleaned := lines.filter is_valid_id_format
  if cleaned.length < lines.length then (cleaned, some (save_ids cleaned))
  else (cleaned, none)

/-- The successive contents of the target file observable while `save_ids`
runs: `open(filename, "w")` first truncates the file to empty, then each
id line is appended in turn. -/
def saveIdsStates (ids : List String) : List String :=
  List.scanl (fun acc id => acc ++ id ++ "\n") "" ids

/-- Per-collection configuration values consumed by the engine, with the
defaults the source supplies to `.get`. -/
structure CollConfig where
  zero_address : String := "0x0000000000000000000000000000000000000000"
  id_cooldown : Int := 60
  max_known_sales : Nat := 50
  max_known_mints : Nat := 100
  max_known_burns : Nat := 100

/-- A normalized Magic Eden activity record.  `tokenId` and `txHash` are
optional because the source substitutes `"???"` / `"noTxHash"` when the
corresponding JSON fields are missing; the other fields default to `""`
as in the source's `.get(..., "")` calls. -/
structure Activity where
  activityType : String := ""
  tokenId : Option String := none
  txHash : Option String := none
  fromAddress : String := ""
  toAddress : String := ""
  timestamp : String := ""
deriving DecidableEq

/-- Lexicographic `≤` on code-point sequences, the order Python uses to
compare strings (the source compares ISO timestamps with `>=`). -/
def leChars : List Char → List Char → Bool
  | [], _ => true
  | _ :: _, [] => false
  | c :: cs, d :: ds => if c = d then leChars cs ds else decide (c < d)

/-- Python string `a <= b`. -/
def pyStrLe (a b : String) : Bool := leChars a.data b.data

/-- Python `str.lower()` (ASCII case folding, character by character; the
addresses the engine compares are ASCII hex strings). -/
def pyLower (s : String) : String :=
  String.mk (s.data.map Char.toLower)

/-- `token_id` as computed in the handlers: `act.get("asset", {}).get("tokenId", "???")`. -/
def tokenIdOf (a : Activity) : String := a.tokenId.getD "???"

/-- `tx_hash` as computed in the handlers: `act.get("transactionInfo", {}).get("transactionId", "noTxHash")`. -/
def txHashOf (a : Activity) : String := a.txHash.getD "noTxHash"

/-- The event id `f"{token_id}-{tx_hash}"`. -/
def eventId (a : Activity) : String := tokenIdOf a ++ "-" ++ txHashOf a

/-- Lookup in an association list with default, as Python `dict.get(k, d)`. -/
def lookupD : List (String × Int) → String → Int → Int
  | [], _, d => d
  | (k, v) :: rest, key, d => if k = key then v else lookupD rest key d

/-- The cooldown test inlined in the sale handlers:
`current_time - token_id_cooldowns[contract].get(token_id, 0) < cooldown_seconds`. -/
def isCoolingDown (m : List (String × Int)) (tokenId : String) (now window : Int) : Bool :=
  decide (now - lookupD m tokenId 0 < window)

/-- The ledger record operation inlined in each handler: append the id,
then if the length exceeds the maximum, `pop(0)` the oldest entry. -/
def recordKnown (mx : Nat) (ks : List String) (id : String) : List String :=
  let ks2 := ks ++ [id]
  if ks2.length > mx then ks2.tail else ks2

/-- In-memory sale state: the `known_sales` ledger and the
`token_id_cooldowns` map for one collection. -/
structure TradeState where
  known_sales : List String
  token_id_cooldowns : List (String × Int)

/-- One iteration of the `process_trade_activities` loop (bot.py lines
282-318), threading the state together with the accepted ids in
acceptance order. -/
def tradeStep (cfg : CollConfig) (now : Int) (s : TradeState × List String)
    (act : Activity) : TradeState × List String :=
  if act.activityType ≠ "TRADE" then s
  else if pyLower act.fromAddress = pyLower cfg.zero_address then s
  else if isCoolingDown s.1.token_id_cooldowns (tokenIdOf act) now (cfg.id_cooldown * 60) then s
  else if eventId act ∈ s.1.known_sales then s
  else
    (⟨recordKnown cfg.max_known_sales s.1.known_sales (eventId act),
      (tokenIdOf act, now) :: s.1.token_id_cooldowns⟩,
     s.2 ++ [eventId act])

/-- `process_trade_activities` (bot.py lines 267-322): fold the trade step
over the batch; returns the final state and the accepted ids. -/
def process_trade_activities (cfg : CollConfig) (now : Int)
    (activities : List Activity) (st : TradeState) : TradeState × List String :=
  activities.foldl (tradeStep cfg now) (st, [])

/-- One iteration of the `process_mint_activities` loop (bot.py lines
334-356). -/
def mintStep (cfg : CollConfig) (s : List String × List String)
    (act : Activity) : List String × List String :=
  if act.activityType ≠ "MINT" then s
  else if eventId act ∈ s.1 then s
  else (recordKnown cfg.max_known_mints s.1 (eventId act), s.2 ++ [eventId act])

/-- `process_mint_activities` (bot.py lines 324-360). -/
def process_mint_activities (cfg : CollConfig) (activities : List Activity)
    (known : List String) : List String × List String :=
  activities.foldl (mintStep cfg) (known, [])

/-- One iteration of the `process_burn_activities` loop (bot.py lines
372-394). -/
def burnStep (cfg : CollConfig) (s : List String × List String)
    (act : Activity) : List String × List String :=
  if act.activityType ≠ "BURN" then s
  else if eventId act ∈ s.1 then s
  else (recordKnown cfg.max_known_burns s.1 (eventId act), s.2 ++ [eventId act])

/-- `process_burn_activities` (bot.py lines 362-398). -/
def process_burn_activities (cfg : CollConfig) (activities : List Activity)
    (known : List String) : List String × List String :=
  activities.foldl (burnStep cfg) (known, [])

/-- Gregorian date from a count of days since 1970-01-01 (the
`datetime.fromtimestamp(..., tz=utc)` conversion used by `unix_to_iso`). -/
def civilFromDays (days : Nat) : Nat × Nat × Nat :=
  let z := days + 719468
  let era := z / 146097
  let doe := z % 146097
  let yoe := (doe - doe / 1460 + doe / 36524 - doe / 146096) / 365
  let y := yoe + era * 400
  let doy := doe - (365 * yoe + yoe / 4 - yoe / 100)
  let mp := (5 * doy + 2) / 153
  let d := doy - (153 * mp + 2) / 5 + 1
  let m := if mp < 10 then mp + 3 else mp - 9
  (if m ≤ 2 then y + 1 else y, m, d)

/-- Zero-padded two-digit rendering of a field of a timestamp. -/
def pad2 (n : Nat) : String :=
  if n < 10 then "0" ++ toString n else toString n

/-- `unix_to_iso` (bot.py lines 836-844): an ISO 8601 UTC timestamp
`YYYY-MM-DDTHH:MM:SSZ`.  The embedding covers nonnegative times (all times
the engine handles); Python's ISO rendering of an integral-second UTC
datetime has exactly this shape after the `+00:00` → `Z` replacement. -/
def unix_to_iso (t : Int) : String :=
  let n := t.toNat
  let ymd := civilFromDays (n / 86400)
  let rem := n % 86400
  toString ymd.1 ++ "-" ++ pad2 ymd.2.1 ++ "-" ++ pad2 ymd.2.2 ++ "T" ++
    pad2 (rem / 3600) ++ ":" ++ pad2 (rem % 3600 / 60) ++ ":" ++ pad2 (rem % 60) ++ "Z"

/-- The batch a pass actually processes (bot.py lines 252-255): keep the
records with `timestamp >= start_iso` (Python string comparison against
the watermark rendered by `unix_to_iso`), then reverse to oldest-first. -/
def passBatch (watermark : Int) (activities : List Activity) : List Activity :=
  (activities.filter (fun a => pyStrLe (unix_to_iso watermark) a.timestamp)).reverse

/-- The reconciliation state for one collection: the three category
ledgers, the cooldown map, and the activity watermark
`last_check_activity_timestamp[contract]`. -/
structure CollState where
  known_sales : List String := []
  known_mints : List String := []
  known_burns : List String := []
  token_id_cooldowns : List (String × Int) := []
  watermark : Int := 0

/-- The observable output of one pass: accepted (notified) ids per
category in acceptance order, and the file content flushed per category
(`none` when nothing new was posted). -/
structure PassOutput where
  acceptedSales : List String
  acceptedMints : List String
  acceptedBurns : List String
  persistedSales : Option String
  persistedMints : Option String
  persistedBurns : Option String

/-- `check_activities_for_collection` (bot.py lines 220-265): absorb a
fetch failure as an empty batch, filter by `timestamp >= start_iso`
(Python string comparison), reverse to oldest-first, run the three
category handlers, flush each category that accepted something, and
advance the watermark to the current time unconditionally. -/
def check_activities_for_collection (cfg : CollConfig) (now : Int)
    (fetchResult : Option (List Activity)) (st : CollState) :
    CollState × PassOutput :=
  let activities := fetchResult.getD []
  let filtered := passBatch st.watermark activities
  let tr := process_trade_activities cfg now filtered ⟨st.known_sales, st.token_id_cooldowns⟩
  let mi := process_mint_activities cfg filtered st.known_mints
  let bu := process_burn_activities cfg filtered st.known_burns
  (⟨tr.1.known_sales, mi.1, bu.1, tr.1.token_id_cooldowns, now⟩,
   ⟨tr.2, mi.2, bu.2,
    if tr.2 ≠ [] then some (save_ids tr.1.known_sales) else none,
    if mi.2 ≠ [] then some (save_ids mi.1) else none,
    if bu.2 ≠ [] then some (save_ids bu.1) else none⟩)

/-- The `nft` object of an OpenSea sale event. -/
structure OsNft where
  identifier : Option String := none

/-- An OpenSea sale event as consumed by `process_opensea_sale_events`. -/
structure OsEvent where
  nft : Option OsNft := none
  transaction : Option String := none
  seller : String := ""
  event_timestamp : Int := 0

/-- One iteration of the `process_opensea_sale_events` loop (bot.py lines
452-495): skip events without `nft` data, skip a nonempty seller equal to
the zero address, then cooldown and dedup as in the Magic Eden handler. -/
def osStep (cfg : CollConfig) (now : Int) (s : TradeState × List String)
    (evt : OsEvent) : TradeState × List String :=
  match evt.nft with
  | none => s
  | some nft =>
    let token_id := nft.identifier.getD "???"
    let tx_hash := evt.transaction.getD "noTxHash"
    let sale_id := token_id ++ "-" ++ tx_hash
    if evt.seller ≠ "" ∧ pyLower evt.seller = pyLower cfg.zero_address then s
    else if isCoolingDown s.1.token_id_cooldowns token_id now (cfg.id_cooldown * 60) then s
    else if sale_id ∈ s.1.known_sales then s
    else
      (⟨recordKnown cfg.max_known_sales s.1.known_sales sale_id,
        (token_id, now) :: s.1.token_id_cooldowns⟩,
       s.2 ++ [sale_id])

/-- `process_opensea_sale_events` (bot.py lines 437-499). -/
def process_opensea_sale_events (cfg : CollConfig) (now : Int)
    (events : List OsEvent) (st : TradeState) : TradeState × List String :=
  events.foldl (osStep cfg now) (st, [])

/-- One Magic Eden reconciliation pass applied to the running state,
described by its clock value and fetch result, accumulating the accepted
ids per category across passes. -/
def runPassStep (cfg : CollConfig)
    (s : CollState × (List String × List String × List String))
    (p : Int × Option (List Activity)) :
    CollState × (List String × List String × List String) :=
  let r := check_activities_for_collection cfg p.1 p.2 s.1
  (r.1, (s.2.1 ++ r.2.acceptedSales, s.2.2.1 ++ r.2.acceptedMints,
    s.2.2.2 ++ r.2.acceptedBurns))

/-- A sequence of Magic Eden reconciliation passes: fold
`check_activities_for_collection` over the pass descriptors, returning
the final state and the ids accepted per category (sales, mints, burns)
concatenated in acceptance order. -/
def runPasses (cfg : CollConfig) (passes : List (Int × Option (List Activity)))
    (st : CollState) : CollState × (List String × List String × List String) :=
  passes.foldl (runPassStep cfg) (st, ([], [], []))

/-- One OpenSea sale pass applied to the running sale state, accumulating
the accepted ids across passes. -/
def osPassStep (cfg : CollConfig) (s : TradeState × List String)
    (p : Int × List OsEvent) : TradeState × List String :=
  let r := process_opensea_sale_events cfg p.1 p.2 s.1
  (r.1, s.2 ++ r.2)

/-- A sequence of OpenSea sale passes over the shared sale state. -/
def osPasses (cfg : CollConfig) (passes : List (Int × List OsEvent))
    (ts : TradeState) : TradeState × List String :=
  passes.foldl (osPassStep cfg) (ts, [])

/-! Concrete collections, records and states used in scenario theorems. -/

/-- A collection with all configuration defaults. -/
def cfg0 : CollConfig := {}

/-- A collection whose mint ledger capacity is 1. -/
def cfgMintMax1 : CollConfig := { max_known_mints := 1 }

/-- A collection whose sale ledger capacity is 2. -/
def cfgSaleMax2 : CollConfig := { max_known_sales := 2 }

/-- The all-empty reconciliation state (fresh start, watermark at epoch). -/
def state0 : CollState := {}

/-- A mint of token 1 in transaction 0xa. -/
def mintA : Activity :=
  { activityType := "MINT", tokenId := some "1", txHash := some "0xa",
    timestamp := "2020-01-01T00:00:00Z" }

/-- A mint of token 2 in transaction 0xb. -/
def mintB : Activity :=
  { activityType := "MINT", tokenId := some "2", txHash := some "0xb",
    timestamp := "2020-01-01T00:00:00Z" }

/-- A trade of token 1 in transaction 0xa. -/
def trade1 : Activity :=
  { activityType := "TRADE", tokenId := some "1", txHash := some "0xa",
    fromAddress := "0xseller", timestamp := "2020-01-01T00:00:00Z" }

/-- A trade of token 2 in transaction 0xb. -/
def trade2 : Activity :=
  { activityType := "TRADE", tokenId := some "2", txHash := some "0xb",
    fromAddress := "0xseller", timestamp := "2020-01-02T00:00:00Z" }

/-- A trade of token 3 in transaction 0xc. -/
def trade3 : Activity :=
  { activityType := "TRADE", tokenId := some "3", txHash := some "0xc",
    fromAddress := "0xseller", timestamp := "2020-01-03T00:00:00Z" }

/-- A trade of token 5 in transaction 0xa. -/
def trade5a : Activity :=
  { activityType := "TRADE", tokenId := some "5", txHash := some "0xa",
    fromAddress := "0xseller", timestamp := "2020-01-01T00:00:00Z" }

/-- A later trade of the same token 5 in a different transaction 0xb. -/
def trade5b : Activity :=
  { activityType := "TRADE", tokenId := some "5", txHash := some "0xb",
    fromAddress := "0xseller", timestamp := "2020-01-02T00:00:00Z" }

/-- A "transfer" record whose destination is the conventional burn
sentinel address. -/
def transferToBurn : Activity :=
  { activityType := "TRANSFER", tokenId := some "7", txHash := some "0xabc",
    fromAddress := "0xsomeowner",
    toAddress := "0x000000000000000000000000000000000000dead",
    timestamp := "2020-01-01T00:00:00Z" }

/-- A mint whose event time 2001-09-09T01:00:00Z lies before the watermark
1000000000 = 2001-09-09T01:46:40Z. -/
def lateMint : Activity :=
  { activityType := "MINT", tokenId := some "7", txHash := some "0xc",
    timestamp := "2001-09-09T01:00:00Z" }

/-- A trade record missing both its token id and its transaction hash, so
the handlers substitute the placeholders `"???"` and `"noTxHash"`. -/
def missingFieldsTrade : Activity :=
  { activityType := "TRADE", tokenId := none, txHash := none,
    fromAddress := "0xseller", timestamp := "2033-05-18T04:00:00Z" }

/-- The state after the first pass of the cooldown scenario: a trade of
token 5 processed at time 1000000000. -/
def c5pass1 : TradeState × List String :=
  process_trade_activities cfg0 1000000000 [trade5a] ⟨[], []⟩

/-- The second pass of the cooldown scenario: the same token in a new
transaction, 1800 seconds later. -/
def c5pass2 : TradeState × List String :=
  process_trade_activities cfg0 1000001800 [trade5b] c5pass1.1

/-- The third pass of the cooldown scenario: retried at 3700 seconds
after the first acceptance. -/
def c5pass3 : TradeState × List String :=
  process_trade_activities cfg0 1000003700 [trade5b] c5pass2.1

/-- First pass of the fetch-failure scenario: the fetch fails at time
1000000000 while the watermark is still 0. -/
def c6pass1 : CollState × PassOutput :=
  check_activities_for_collection cfg0 1000000000 none state0

/-- Second pass of the fetch-failure scenario: the missed record now
reappears, but its event time lies before the advanced watermark. -/
def c6pass2 : CollState × PassOutput :=
  check_activities_for_collection cfg0 1000001000 (some [lateMint]) c6pass1.1

/-- First pass of the placeholder-id scenario: the record with missing
fields is accepted and flushed. -/
def c10pass1 : CollState × PassOutput :=
  check_activities_for_collection cfg0 1000000000 (some [missingFieldsTrade]) state0

/-- The pass after a process restart in the placeholder-id scenario: the
ledger was reloaded from the flushed file (the placeholder line was
dropped), the cooldown map is fresh, and the watermark was reset. -/
def c10pass2 : CollState × PassOutput :=
  check_activities_for_collection cfg0 2000000100 (some [missingFieldsTrade])
    { known_sales := (load_ids "???-noTxHash\n").1, watermark := 2000000000 }

/-- A record tagged as a trade whose origin is the zero sentinel address. -/
def zeroOriginTrade : Activity :=
  { activityType := "TRADE", tokenId := some "9", txHash := some "0xf",
    fromAddress := "0x0000000000000000000000000000000000000000",
    timestamp := "2020-01-01T00:00:00Z" }

/-- An OpenSea sale event whose seller is the zero sentinel address. -/
def zeroSellerOsEvent : OsEvent :=
  { nft := some { identifier := some "9" }, transaction := some "0xf",
    seller := "0x0000000000000000000000000000000000000000",
    event_timestamp := 1000000000 }

/-- An ordinary OpenSea sale of token 9 by a non-sentinel seller. -/
def osSale9 : OsEvent :=
  { nft := some { identifier := some "9" }, transaction := some "0xf",
    seller := "0xalice", event_timestamp := 1000000000 }

end NftBot

namespace NftBot

/-! ### Helper lemmas about the ledger record operation -/

/-- `recordKnown` preserves the capacity bound. -/
theorem recordKnown_length {mx : Nat} {ks : List String} {id : String}
    (h : ks.length ≤ mx) : (recordKnown mx ks id).length ≤ mx := by
  simp only [recordKnown]
  split
  case isTrue hgt =>
    simp only [List.length_tail, List.length_append, List.length_cons,
      List.length_nil] at *
    omega
  case isFalse hgt =>
    simp only [List.length_append, List.length_cons, List.length_nil] at *
    omega

/-- When the ledger is exactly full, `recordKnown` evicts exactly the
single oldest entry and appends the new id at the back. -/
theorem recordKnown_evict {mx : Nat} {ks : List String} {id : String}
    (hlen : ks.length = mx) (hne : ks ≠ []) :
    recordKnown mx ks id = ks.tail ++ [id] := by
  cases ks with
  | nil => exact absurd rfl hne
  | cons a l =>
    simp only [recordKnown, List.cons_append, List.length_cons,
      List.length_append, List.length_nil]
    rw [if_pos (by simp only [List.length_cons] at hlen; omega)]
    rfl

/-- When there is room for the new id, `recordKnown` is a plain append. -/
theorem recordKnown_no_evict {mx : Nat} {ks : List String} {id : String}
    (h : ks.length + 1 ≤ mx) : recordKnown mx ks id = ks ++ [id] := by
  simp only [recordKnown]
  rw [if_neg]
  simp only [List.length_append, List.length_cons, List.length_nil]
  omega

/-- A predicate preserved by each step is preserved by the whole fold. -/
theorem foldl_preserve {σ α : Type} (P : σ → Prop) (f : σ → α → σ)
    (hf : ∀ s a, P s → P (f s a)) :
    ∀ (l : List α) (s : σ), P s → P (l.foldl f s) := by
  intro l
  induction l with
  | nil => intro s h; simpa using h
  | cons a t ih =>
    intro s h
    rw [List.foldl_cons]
    exact ih _ (hf s a h)

/-- Each trade step keeps the sale ledger within its capacity. -/
theorem tradeStep_length {cfg : CollConfig} {now : Int}
    (s : TradeState × List String) (act : Activity)
    (h : s.1.known_sales.length ≤ cfg.max_known_sales) :
    ((tradeStep cfg now s act).1).known_sales.length ≤ cfg.max_known_sales := by
  simp only [tradeStep]
  split
  · exact h
  split
  · exact h
  split
  · exact h
  split
  · exact h
  exact recordKnown_length h

/-! ### Claim C2 -/

/-- Claim C2: the sale ledger size never exceeds the configured maximum
after processing any batch from a within-capacity state; when an append
makes the size exceed the maximum, exactly the single oldest entry is
evicted (strict FIFO); and in the concrete scenario with
`max_known_sales = 2` and sequentially accepted ids `1-0xa`, `2-0xb`,
`3-0xc`, the final in-memory and persisted sequence is exactly
`["2-0xb", "3-0xc"]`, which reloads unchanged. -/
theorem c2_ledger_bound_and_fifo (cfg : CollConfig) (now : Int)
    (acts : List Activity) (st : TradeState)
    (h : st.known_sales.length ≤ cfg.max_known_sales) :
    ((process_trade_activities cfg now acts st).1).known_sales.length ≤ cfg.max_known_sales
    ∧ (∀ (mx : Nat) (ks : List String) (id : String),
        ks.length = mx → ks ≠ [] → recordKnown mx ks id = ks.tail ++ [id])
    ∧ (check_activities_for_collection cfgSaleMax2 1000000000
        (some [trade3, trade2, trade1]) state0).1.known_sales = ["2-0xb", "3-0xc"]
    ∧ (check_activities_for_collection cfgSaleMax2 1000000000
        (some [trade3, trade2, trade1]) state0).2.persistedSales = some "2-0xb\n3-0xc\n"
    ∧ (load_ids "2-0xb\n3-0xc\n").1 = ["2-0xb", "3-0xc"] := by
  refine ⟨?_, ?_, by decide, by decide, by decide⟩
  · exact foldl_preserve (fun s => s.1.known_sales.length ≤ cfg.max_known_sales)
      (tradeStep cfg now) (fun s a hs => tradeStep_length s a hs) acts (st, []) h
  · intro mx ks id h1 h2
    exact recordKnown_evict h1 h2

/-- Witness for `c2_ledger_bound_and_fifo` at the scenario collection and
an empty initial ledger. -/
theorem c2_ledger_bound_and_fifo_witness :
    ([] : List String).length ≤ cfgSaleMax2.max_known_sales
    ∧ ((process_trade_activities cfgSaleMax2 1000000000 [trade1]
        ⟨[], []⟩).1).known_sales.length ≤ cfgSaleMax2.max_known_sales :=
  ⟨by decide,
   (c2_ledger_bound_and_fifo cfgSaleMax2 1000000000 [trade1] ⟨[], []⟩ (by decide)).1⟩

end NftBot

namespace NftBot

/-! ### Claim C3 -/

/-- Claim C3 counterexample: a "transfer" record whose destination is the
burn sentinel address is NOT reclassified and accepted as Burn — the
handlers route purely by `activityType`, so the record is skipped by all
three category handlers and the burn ledger stays empty.  This refutes
the claim's first half at a concrete input. -/
theorem c3_counterexample :
    transferToBurn.activityType = "TRANSFER"
    ∧ transferToBurn.toAddress = "0x000000000000000000000000000000000000dead"
    ∧ (check_activities_for_collection cfg0 1000000000 (some [transferToBurn])
        state0).2.acceptedBurns = []
    ∧ (check_activities_for_collection cfg0 1000000000 (some [transferToBurn])
        state0).1.known_burns = []
    ∧ (check_activities_for_collection cfg0 1000000000 (some [transferToBurn])
        state0).2.persistedBurns = none
    ∧ (check_activities_for_collection cfg0 1000000000 (some [transferToBurn])
        state0).2.acceptedMints = []
    ∧ (check_activities_for_collection cfg0 1000000000 (some [transferToBurn])
        state0).2.acceptedSales = [] := by decide

/-- Claim C3 as amended: routing is by `activityType` alone.  A record
enters the burn path (and is accepted there when new) iff its type is
`"BURN"`; a record with any other type — in particular a "transfer",
whatever its destination address — is skipped by the burn handler, and a
record typed neither `"MINT"` nor `"TRADE"` is likewise classified as
neither mint nor trade. -/
theorem c3_routing_by_type (cfg : CollConfig) (now : Int)
    (s : List String × List String) (t : TradeState × List String)
    (act : Activity) :
    (act.activityType ≠ "BURN" → burnStep cfg s act = s)
    ∧ (act.activityType = "BURN" → eventId act ∉ s.1 →
        burnStep cfg s act =
          (recordKnown cfg.max_known_burns s.1 (eventId act), s.2 ++ [eventId act]))
    ∧ (act.activityType ≠ "MINT" → mintStep cfg s act = s)
    ∧ (act.activityType ≠ "TRADE" → tradeStep cfg now t act = t) := by
  refine ⟨?_, ?_, ?_, ?_⟩
  · intro h
    simp [burnStep, h]
  · intro h1 h2
    simp [burnStep, h1, h2]
  · intro h
    simp [mintStep, h]
  · intro h
    simp [tradeStep, h]

/-- Witness for `c3_routing_by_type` at the transfer-to-burn-sentinel
record. -/
theorem c3_routing_by_type_witness :
    transferToBurn.activityType ≠ "BURN"
    ∧ burnStep cfg0 ([], []) transferToBurn = ([], []) :=
  ⟨by decide,
   (c3_routing_by_type cfg0 0 ([], []) (⟨[], []⟩, []) transferToBurn).1 (by decide)⟩

/-! ### Claim C4 -/

/-- Claim C4: a record whose origin equals the zero/mint sentinel address
is never accepted as a Trade: the Magic Eden trade step and the OpenSea
sale step both leave the sale ledger, the cooldown map and the accepted
list untouched, even when the record is tagged as a trade.  (For the
OpenSea handler the seller field must be nonempty — the sentinel is an
address, hence nonempty.) -/
theorem c4_zero_origin_never_trade (cfg : CollConfig) (now : Int)
    (t : TradeState × List String) (act : Activity) (evt : OsEvent)
    (hme : pyLower act.fromAddress = pyLower cfg.zero_address)
    (hos1 : evt.seller ≠ "")
    (hos2 : pyLower evt.seller = pyLower cfg.zero_address) :
    tradeStep cfg now t act = t ∧ osStep cfg now t evt = t := by
  constructor
  · simp [tradeStep, hme]
  · obtain ⟨nf, tx, sl, ts⟩ := evt
    cases nf with
    | none => rfl
    | some nft => simp [osStep, hos1, hos2]

/-- Witness for `c4_zero_origin_never_trade` at concrete records whose
origin is the default zero address. -/
theorem c4_zero_origin_never_trade_witness :
    pyLower zeroOriginTrade.fromAddress = pyLower cfg0.zero_address
    ∧ zeroSellerOsEvent.seller ≠ ""
    ∧ tradeStep cfg0 1000000000 (⟨[], []⟩, []) zeroOriginTrade = (⟨[], []⟩, [])
    ∧ osStep cfg0 1000000000 (⟨[], []⟩, []) zeroSellerOsEvent = (⟨[], []⟩, []) :=
  ⟨by decide, by decide,
   (c4_zero_origin_never_trade cfg0 1000000000 (⟨[], []⟩, []) zeroOriginTrade
     zeroSellerOsEvent (by decide) (by decide) (by decide)).1,
   (c4_zero_origin_never_trade cfg0 1000000000 (⟨[], []⟩, []) zeroOriginTrade
     zeroSellerOsEvent (by decide) (by decide) (by decide)).2⟩

/-! ### Claim C5 -/

/-- Claim C5 counterexample: the claim's scenario starts at t = 0, but an
unknown token id is treated as last-notified at epoch 0, so at
`now = 0` the cooldown test `0 - 0 < 3600` is true and the first trade of
asset 5 is REJECTED, not accepted: no id is accepted and the ledger stays
empty. -/
theorem c5_counterexample :
    isCoolingDown [] "5" 0 (cfg0.id_cooldown * 60) = true
    ∧ (process_trade_activities cfg0 0 [trade5a] ⟨[], []⟩).2 = []
    ∧ (process_trade_activities cfg0 0 [trade5a] ⟨[], []⟩).1.known_sales = [] := by
  decide

/-- Claim C5 as amended: the cooldown check returns true iff `now` minus
the recorded last-notified time (0 for an unknown token id) is strictly
less than the window; the claim's concrete scenario holds once its times
are moved away from epoch 0: with a 3600 s window, a trade of asset 5
accepted at t = 1000000000 causes a second trade of 5 with a different
tx hash to be rejected 1800 s later and accepted 3700 s later. -/
theorem c5_cooldown_window (m : List (String × Int)) (tok : String)
    (now window : Int) :
    (isCoolingDown m tok now window = true ↔ now - lookupD m tok 0 < window)
    ∧ c5pass1.2 = ["5-0xa"]
    ∧ c5pass2.2 = []
    ∧ c5pass3.2 = ["5-0xb"] := by
  refine ⟨?_, by decide, by decide, by decide⟩
  simp [isCoolingDown]

/-! ### Claim C6 -/

/-- Claim C6: the watermark is advanced to the pass time unconditionally
(whatever the fetch returned); a failed fetch is absorbed as zero new
records — the pass accepts nothing, persists nothing and leaves all
ledgers unchanged; and in the concrete scenario a record whose event time
lies before the advanced watermark is filtered out on the next pass and
never processed, although the same record is accepted when it does reach
a handler. -/
theorem c6_fetch_failure_watermark (cfg : CollConfig) (now : Int)
    (st : CollState) :
    (∀ fetchResult : Option (List Activity),
      (check_activities_for_collection cfg now fetchResult st).1.watermark = now)
    ∧ check_activities_for_collection cfg now none st =
        ({ st with watermark := now }, ⟨[], [], [], none, none, none⟩)
    ∧ c6pass1.1.watermark = 1000000000
    ∧ c6pass1.2.acceptedMints = []
    ∧ c6pass2.2.acceptedMints = []
    ∧ c6pass2.1.known_mints = []
    ∧ (process_mint_activities cfg0 [lateMint] []).2 = ["7-0xc"] := by
  refine ⟨?_, ?_, by decide, by decide, by decide, by decide, by decide⟩
  · intro fetchResult
    rfl
  · cases st
    rfl

/-! ### Claim C10 -/

/-- Claim C10: a trade record missing its token id and transaction hash
gets the placeholder event id `"???-noTxHash"`, which fails the id-shape
validator; it is nevertheless accepted into the in-memory ledger and
written to the persisted file, but it is dropped at the next load (and
the cleaned, now-empty sequence re-persisted), so after a restart the
same event is accepted and notified a second time. -/
theorem c10_placeholder_ids_not_durable :
    is_valid_id_format "???-noTxHash" = false
    ∧ c10pass1.2.acceptedSales = ["???-noTxHash"]
    ∧ c10pass1.1.known_sales = ["???-noTxHash"]
    ∧ c10pass1.2.persistedSales = some "???-noTxHash\n"
    ∧ load_ids "???-noTxHash\n" = ([], some "")
    ∧ c10pass2.2.acceptedSales = ["???-noTxHash"] := by
  decide

end NftBot

namespace NftBot

/-! ### Claim C1 -/

/-- The time filter and reversal never enlarge a batch. -/
theorem passBatch_length_le (wm : Int) (acts : List Activity) :
    (passBatch wm acts).length ≤ acts.length := by
  rw [passBatch, List.length_reverse]
  exact List.length_filter_le _ _

/-- Summing the constant weight 1 over a list counts its elements. -/
theorem sum_map_one {α : Type} (l : List α) :
    (l.map (fun _ => (1 : Nat))).sum = l.length := by
  induction l with
  | nil => rfl
  | cons a t ih => simp [ih, Nat.add_comm]

/-- Generic accept/dedup invariant shared by every category engine.
`ledger` and `acc` project the bounded dedup ledger and the accepted ids
out of a processing state; each step either leaves both untouched or
appends a batch `fresh` of new ids absent from the ledger (for the
per-record steps `fresh` is one id, for a whole pass it is the pass's
accepted list), provided capacity is not exceeded.  Then across the whole
fold, under the capacity bound: the accepted ids are pairwise distinct,
all accepted ids are ledger members, the ledger only grows and stays
within the consumed weight, and every accepted id was absent from the
starting ledger. -/
theorem accept_fold_inv {σ π : Type} (ledger acc : σ → List String)
    (step : σ → π → σ) (weight : π → Nat) (mx : Nat)
    (hstep : ∀ (s : σ) (p : π), (ledger s).length + weight p ≤ mx →
      ∃ fresh : List String,
        acc (step s p) = acc s ++ fresh
        ∧ fresh.Nodup
        ∧ (∀ x ∈ fresh, x ∈ ledger (step s p))
        ∧ (∀ x ∈ ledger s, x ∈ ledger (step s p))
        ∧ (ledger (step s p)).length ≤ (ledger s).length + weight p
        ∧ (∀ x ∈ fresh, x ∉ ledger s)) :
    ∀ (l : List π) (s : σ),
      (ledger s).length + (l.map weight).sum ≤ mx →
      (acc s).Nodup → (∀ x ∈ acc s, x ∈ ledger s) →
      ((acc (l.foldl step s)).Nodup
       ∧ (∀ x ∈ acc (l.foldl step s), x ∈ ledger (l.foldl step s))
       ∧ (∀ x ∈ ledger s, x ∈ ledger (l.foldl step s))
       ∧ (ledger (l.foldl step s)).length ≤ (ledger s).length + (l.map weight).sum
       ∧ (∀ x ∈ acc (l.foldl step s), x ∈ acc s ∨ x ∉ ledger s)) := by
  intro l
  induction l with
  | nil =>
    intro s h hnd hsub
    refine ⟨hnd, hsub, fun x hx => hx, by simp, fun x hx => Or.inl hx⟩
  | cons p rest ih =>
    intro s h hnd hsub
    rw [List.foldl_cons]
    simp only [List.map_cons, List.sum_cons] at h
    have hcap1 : (ledger s).length + weight p ≤ mx := by omega
    obtain ⟨fresh, e_acc, f_nd, f_sub, f_mono, f_len, f_new⟩ := hstep s p hcap1
    have hsub' : ∀ x ∈ acc (step s p), x ∈ ledger (step s p) := by
      intro x hx
      rw [e_acc] at hx
      rcases List.mem_append.mp hx with h' | h'
      · exact f_mono x (hsub x h')
      · exact f_sub x h'
    have hnd' : (acc (step s p)).Nodup := by
      rw [e_acc]
      refine List.Nodup.append hnd f_nd ?_
      intro x hx hxf
      exact f_new x hxf (hsub x hx)
    have hcap' : (ledger (step s p)).length + (rest.map weight).sum ≤ mx := by omega
    obtain ⟨r1, r2, r3, r4, r5⟩ := ih (step s p) hcap' hnd' hsub'
    refine ⟨r1, r2, ?_, ?_, ?_⟩
    · intro x hx
      exact r3 x (f_mono x hx)
    · simp only [List.map_cons, List.sum_cons]
      omega
    · intro x hx
      rcases r5 x hx with h' | h'
      · rw [e_acc] at h'
        rcases List.mem_append.mp h' with h'' | h''
        · exact Or.inl h''
        · exact Or.inr (f_new x h'')
      · exact Or.inr (fun hk => h' (f_mono x hk))

/-- The trade step has the accept/dedup shape: it skips, or it appends a
single id that was absent from the sale ledger. -/
theorem tradeStep_shape (cfg : CollConfig) (now : Int) :
    ∀ (s : TradeState × List String) (a : Activity),
      s.1.known_sales.length + 1 ≤ cfg.max_known_sales →
      ∃ fresh : List String,
        (tradeStep cfg now s a).2 = s.2 ++ fresh
        ∧ fresh.Nodup
        ∧ (∀ x ∈ fresh, x ∈ (tradeStep cfg now s a).1.known_sales)
        ∧ (∀ x ∈ s.1.known_sales, x ∈ (tradeStep cfg now s a).1.known_sales)
        ∧ ((tradeStep cfg now s a).1.known_sales).length ≤ s.1.known_sales.length + 1
        ∧ (∀ x ∈ fresh, x ∉ s.1.known_sales) := by
  intro s a hcap
  simp only [tradeStep]
  split
  · exact ⟨[], by simp, List.nodup_nil, by simp, fun x hx => hx, by omega, by simp⟩
  split
  · exact ⟨[], by simp, List.nodup_nil, by simp, fun x hx => hx, by omega, by simp⟩
  split
  · exact ⟨[], by simp, List.nodup_nil, by simp, fun x hx => hx, by omega, by simp⟩
  split
  · exact ⟨[], by simp, List.nodup_nil, by simp, fun x hx => hx, by omega, by simp⟩
  rename_i hmem
  rw [recordKnown_no_evict hcap]
  refine ⟨[eventId a], rfl, List.nodup_singleton _, ?_, ?_, by simp, ?_⟩
  · intro x hx
    rw [List.mem_singleton] at hx
    subst hx
    exact List.mem_append_right _ (List.mem_singleton_self _)
  · intro x hx
    exact List.mem_append_left _ hx
  · intro x hx
    rw [List.mem_singleton] at hx
    subst hx
    exact hmem

/-- The mint step has the accept/dedup shape. -/
theorem mintStep_shape (cfg : CollConfig) :
    ∀ (s : List String × List String) (a : Activity),
      s.1.length + 1 ≤ cfg.max_known_mints →
      ∃ fresh : List String,
        (mintStep cfg s a).2 = s.2 ++ fresh
        ∧ fresh.Nodup
        ∧ (∀ x ∈ fresh, x ∈ (mintStep cfg s a).1)
        ∧ (∀ x ∈ s.1, x ∈ (mintStep cfg s a).1)
        ∧ ((mintStep cfg s a).1).length ≤ s.1.length + 1
        ∧ (∀ x ∈ fresh, x ∉ s.1) := by
  intro s a hcap
  simp only [mintStep]
  split
  · exact ⟨[], by simp, List.nodup_nil, by simp, fun x hx => hx, by omega, by simp⟩
  split
  · exact ⟨[], by simp, List.nodup_nil, by simp, fun x hx => hx, by omega, by simp⟩
  rename_i hmem
  rw [recordKnown_no_evict hcap]
  refine ⟨[eventId a], rfl, List.nodup_singleton _, ?_, ?_, by simp, ?_⟩
  · intro x hx
    rw [List.mem_singleton] at hx
    subst hx
    exact List.mem_append_right _ (List.mem_singleton_self _)
  · intro x hx
    exact List.mem_append_left _ hx
  · intro x hx
    rw [List.mem_singleton] at hx
    subst hx
    exact hmem

/-- The burn step has the accept/dedup shape. -/
theorem burnStep_shape (cfg : CollConfig) :
    ∀ (s : List String × List String) (a : Activity),
      s.1.length + 1 ≤ cfg.max_known_burns →
      ∃ fresh : List String,
        (burnStep cfg s a).2 = s.2 ++ fresh
        ∧ fresh.Nodup
        ∧ (∀ x ∈ fresh, x ∈ (burnStep cfg s a).1)
        ∧ (∀ x ∈ s.1, x ∈ (burnStep cfg s a).1)
        ∧ ((burnStep cfg s a).1).length ≤ s.1.length + 1
        ∧ (∀ x ∈ fresh, x ∉ s.1) := by
  intro s a hcap
  simp only [burnStep]
  split
  · exact ⟨[], by simp, List.nodup_nil, by simp, fun x hx => hx, by omega, by simp⟩
  split
  · exact ⟨[], by simp, List.nodup_nil, by simp, fun x hx => hx, by omega, by simp⟩
  rename_i hmem
  rw [recordKnown_no_evict hcap]
  refine ⟨[eventId a], rfl, List.nodup_singleton _, ?_, ?_, by simp, ?_⟩
  · intro x hx
    rw [List.mem_singleton] at hx
    subst hx
    exact List.mem_append_right _ (List.mem_singleton_self _)
  · intro x hx
    exact List.mem_append_left _ hx
  · intro x hx
    rw [List.mem_singleton] at hx
    subst hx
    exact hmem

/-- The OpenSea sale step has the accept/dedup shape on the shared sale
ledger. -/
theorem osStep_shape (cfg : CollConfig) (now : Int) :
    ∀ (s : TradeState × List String) (evt : OsEvent),
      s.1.known_sales.length + 1 ≤ cfg.max_known_sales →
      ∃ fresh : List String,
        (osStep cfg now s evt).2 = s.2 ++ fresh
        ∧ fresh.Nodup
        ∧ (∀ x ∈ fresh, x ∈ (osStep cfg now s evt).1.known_sales)
        ∧ (∀ x ∈ s.1.known_sales, x ∈ (osStep cfg now s evt).1.known_sales)
        ∧ ((osStep cfg now s evt).1.known_sales).length ≤ s.1.known_sales.length + 1
        ∧ (∀ x ∈ fresh, x ∉ s.1.known_sales) := by
  intro s evt hcap
  obtain ⟨nf, tx, sl, ts⟩ := evt
  cases nf with
  | none =>
    simp only [osStep]
    exact ⟨[], by simp, List.nodup_nil, by simp, fun x hx => hx, by omega, by simp⟩
  | some nft =>
    simp only [osStep]
    split
    · exact ⟨[], by simp, List.nodup_nil, by simp, fun x hx => hx, by omega, by simp⟩
    split
    · exact ⟨[], by simp, List.nodup_nil, by simp, fun x hx => hx, by omega, by simp⟩
    split
    · exact ⟨[], by simp, List.nodup_nil, by simp, fun x hx => hx, by omega, by simp⟩
    rename_i hmem
    rw [recordKnown_no_evict hcap]
    refine ⟨[nft.identifier.getD "???" ++ "-" ++ tx.getD "noTxHash"], rfl,
      List.nodup_singleton _, ?_, ?_, by simp, ?_⟩
    · intro x hx
      rw [List.mem_singleton] at hx
      subst hx
      exact List.mem_append_right _ (List.mem_singleton_self _)
    · intro x hx
      exact List.mem_append_left _ hx
    · intro x hx
      rw [List.mem_singleton] at hx
      subst hx
      exact hmem

/-- Batch-level accept/dedup invariant of `process_trade_activities`. -/
theorem trade_batch_inv (cfg : CollConfig) (now : Int) (acts : List Activity)
    (ts : TradeState)
    (h : ts.known_sales.length + acts.length ≤ cfg.max_known_sales) :
    ((process_trade_activities cfg now acts ts).2.Nodup
     ∧ (∀ x ∈ (process_trade_activities cfg now acts ts).2,
          x ∈ (process_trade_activities cfg now acts ts).1.known_sales)
     ∧ (∀ x ∈ ts.known_sales,
          x ∈ (process_trade_activities cfg now acts ts).1.known_sales)
     ∧ ((process_trade_activities cfg now acts ts).1.known_sales).length
          ≤ ts.known_sales.length + acts.length
     ∧ (∀ x ∈ (process_trade_activities cfg now acts ts).2, x ∉ ts.known_sales)) := by
  obtain ⟨r1, r2, r3, r4, r5⟩ :=
    accept_fold_inv (fun s : TradeState × List String => s.1.known_sales)
      (fun s => s.2) (tradeStep cfg now) (fun _ => 1) cfg.max_known_sales
      (tradeStep_shape cfg now) acts (ts, [])
      (by rw [sum_map_one]; exact h) List.nodup_nil (by simp)
  rw [sum_map_one] at r4
  rw [process_trade_activities]
  exact ⟨r1, r2, r3, r4,
    fun x hx => (r5 x hx).elim (fun hc => absurd hc (List.not_mem_nil x)) id⟩

/-- Batch-level accept/dedup invariant of `process_mint_activities`. -/
theorem mint_batch_inv (cfg : CollConfig) (acts : List Activity)
    (known : List String)
    (h : known.length + acts.length ≤ cfg.max_known_mints) :
    ((process_mint_activities cfg acts known).2.Nodup
     ∧ (∀ x ∈ (process_mint_activities cfg acts known).2,
          x ∈ (process_mint_activities cfg acts known).1)
     ∧ (∀ x ∈ known, x ∈ (process_mint_activities cfg acts known).1)
     ∧ ((process_mint_activities cfg acts known).1).length
          ≤ known.length + acts.length
     ∧ (∀ x ∈ (process_mint_activities cfg acts known).2, x ∉ known)) := by
  obtain ⟨r1, r2, r3, r4, r5⟩ :=
    accept_fold_inv (fun s : List String × List String => s.1)
      (fun s => s.2) (mintStep cfg) (fun _ => 1) cfg.max_known_mints
      (mintStep_shape cfg) acts (known, [])
      (by rw [sum_map_one]; exact h) List.nodup_nil (by simp)
  rw [sum_map_one] at r4
  rw [process_mint_activities]
  exact ⟨r1, r2, r3, r4,
    fun x hx => (r5 x hx).elim (fun hc => absurd hc (List.not_mem_nil x)) id⟩

/-- Batch-level accept/dedup invariant of `process_burn_activities`. -/
theorem burn_batch_inv (cfg : CollConfig) (acts : List Activity)
    (known : List String)
    (h : known.length + acts.length ≤ cfg.max_known_burns) :
    ((process_burn_activities cfg acts known).2.Nodup
     ∧ (∀ x ∈ (process_burn_activities cfg acts known).2,
          x ∈ (process_burn_activities cfg acts known).1)
     ∧ (∀ x ∈ known, x ∈ (process_burn_activities cfg acts known).1)
     ∧ ((process_burn_activities cfg acts known).1).length
          ≤ known.length + acts.length
     ∧ (∀ x ∈ (process_burn_activities cfg acts known).2, x ∉ known)) := by
  obtain ⟨r1, r2, r3, r4, r5⟩ :=
    accept_fold_inv (fun s : List String × List String => s.1)
      (fun s => s.2) (burnStep cfg) (fun _ => 1) cfg.max_known_burns
      (burnStep_shape cfg) acts (known, [])
      (by rw [sum_map_one]; exact h) List.nodup_nil (by simp)
  rw [sum_map_one] at r4
  rw [process_burn_activities]
  exact ⟨r1, r2, r3, r4,
    fun x hx => (r5 x hx).elim (fun hc => absurd hc (List.not_mem_nil x)) id⟩

/-- Batch-level accept/dedup invariant of `process_opensea_sale_events`. -/
theorem os_batch_inv (cfg : CollConfig) (now : Int) (events : List OsEvent)
    (ts : TradeState)
    (h : ts.known_sales.length + events.length ≤ cfg.max_known_sales) :
    ((process_opensea_sale_events cfg now events ts).2.Nodup
     ∧ (∀ x ∈ (process_opensea_sale_events cfg now events ts).2,
          x ∈ (process_opensea_sale_events cfg now events ts).1.known_sales)
     ∧ (∀ x ∈ ts.known_sales,
          x ∈ (process_opensea_sale_events cfg now events ts).1.known_sales)
     ∧ ((process_opensea_sale_events cfg now events ts).1.known_sales).length
          ≤ ts.known_sales.length + events.length
     ∧ (∀ x ∈ (process_opensea_sale_events cfg now events ts).2,
          x ∉ ts.known_sales)) := by
  obtain ⟨r1, r2, r3, r4, r5⟩ :=
    accept_fold_inv (fun s : TradeState × List String => s.1.known_sales)
      (fun s => s.2) (osStep cfg now) (fun _ => 1) cfg.max_known_sales
      (osStep_shape cfg now) events (ts, [])
      (by rw [sum_map_one]; exact h) List.nodup_nil (by simp)
  rw [sum_map_one] at r4
  rw [process_opensea_sale_events]
  exact ⟨r1, r2, r3, r4,
    fun x hx => (r5 x hx).elim (fun hc => absurd hc (List.not_mem_nil x)) id⟩

/-- A whole Magic Eden pass has the accept/dedup shape on the sale
ledger, weighted by the fetched batch size. -/
theorem runPassStep_sales_shape (cfg : CollConfig) :
    ∀ (s : CollState × (List String × List String × List String))
      (p : Int × Option (List Activity)),
      s.1.known_sales.length + ((p.2).getD []).length ≤ cfg.max_known_sales →
      ∃ fresh : List String,
        (runPassStep cfg s p).2.1 = s.2.1 ++ fresh
        ∧ fresh.Nodup
        ∧ (∀ x ∈ fresh, x ∈ (runPassStep cfg s p).1.known_sales)
        ∧ (∀ x ∈ s.1.known_sales, x ∈ (runPassStep cfg s p).1.known_sales)
        ∧ ((runPassStep cfg s p).1.known_sales).length
            ≤ s.1.known_sales.length + ((p.2).getD []).length
        ∧ (∀ x ∈ fresh, x ∉ s.1.known_sales) := by
  intro s p hcap
  have hb : (passBatch s.1.watermark ((p.2).getD [])).length ≤ ((p.2).getD []).length :=
    passBatch_length_le _ _
  have hcap2 : (⟨s.1.known_sales, s.1.token_id_cooldowns⟩ : TradeState).known_sales.length
      + (passBatch s.1.watermark ((p.2).getD [])).length ≤ cfg.max_known_sales := by
    show s.1.known_sales.length + _ ≤ _
    omega
  obtain ⟨A, B, C, D, E⟩ := trade_batch_inv cfg p.1
    (passBatch s.1.watermark ((p.2).getD []))
    ⟨s.1.known_sales, s.1.token_id_cooldowns⟩ hcap2
  exact ⟨(process_trade_activities cfg p.1 (passBatch s.1.watermark ((p.2).getD []))
      ⟨s.1.known_sales, s.1.token_id_cooldowns⟩).2,
    rfl, A, B, C, le_trans D (Nat.add_le_add_left hb _), E⟩

/-- A whole Magic Eden pass has the accept/dedup shape on the mint
ledger. -/
theorem runPassStep_mints_shape (cfg : CollConfig) :
    ∀ (s : CollState × (List String × List String × List String))
      (p : Int × Option (List Activity)),
      s.1.known_mints.length + ((p.2).getD []).length ≤ cfg.max_known_mints →
      ∃ fresh : List String,
        (runPassStep cfg s p).2.2.1 = s.2.2.1 ++ fresh
        ∧ fresh.Nodup
        ∧ (∀ x ∈ fresh, x ∈ (runPassStep cfg s p).1.known_mints)
        ∧ (∀ x ∈ s.1.known_mints, x ∈ (runPassStep cfg s p).1.known_mints)
        ∧ ((runPassStep cfg s p).1.known_mints).length
            ≤ s.1.known_mints.length + ((p.2).getD []).length
        ∧ (∀ x ∈ fresh, x ∉ s.1.known_mints) := by
  intro s p hcap
  have hb : (passBatch s.1.watermark ((p.2).getD [])).length ≤ ((p.2).getD []).length :=
    passBatch_length_le _ _
  obtain ⟨A, B, C, D, E⟩ := mint_batch_inv cfg
    (passBatch s.1.watermark ((p.2).getD [])) s.1.known_mints (by omega)
  exact ⟨(process_mint_activities cfg (passBatch s.1.watermark ((p.2).getD []))
      s.1.known_mints).2,
    rfl, A, B, C, le_trans D (Nat.add_le_add_left hb _), E⟩

/-- A whole Magic Eden pass has the accept/dedup shape on the burn
ledger. -/
theorem runPassStep_burns_shape (cfg : CollConfig) :
    ∀ (s : CollState × (List String × List String × List String))
      (p : Int × Option (List Activity)),
      s.1.known_burns.length + ((p.2).getD []).length ≤ cfg.max_known_burns →
      ∃ fresh : List String,
        (runPassStep cfg s p).2.2.2 = s.2.2.2 ++ fresh
        ∧ fresh.Nodup
        ∧ (∀ x ∈ fresh, x ∈ (runPassStep cfg s p).1.known_burns)
        ∧ (∀ x ∈ s.1.known_burns, x ∈ (runPassStep cfg s p).1.known_burns)
        ∧ ((runPassStep cfg s p).1.known_burns).length
            ≤ s.1.known_burns.length + ((p.2).getD []).length
        ∧ (∀ x ∈ fresh, x ∉ s.1.known_burns) := by
  intro s p hcap
  have hb : (passBatch s.1.watermark ((p.2).getD [])).length ≤ ((p.2).getD []).length :=
    passBatch_length_le _ _
  obtain ⟨A, B, C, D, E⟩ := burn_batch_inv cfg
    (passBatch s.1.watermark ((p.2).getD [])) s.1.known_burns (by omega)
  exact ⟨(process_burn_activities cfg (passBatch s.1.watermark ((p.2).getD []))
      s.1.known_burns).2,
    rfl, A, B, C, le_trans D (Nat.add_le_add_left hb _), E⟩

/-- A whole OpenSea pass has the accept/dedup shape on the shared sale
ledger. -/
theorem osPassStep_shape (cfg : CollConfig) :
    ∀ (s : TradeState × List String) (p : Int × List OsEvent),
      s.1.known_sales.length + p.2.length ≤ cfg.max_known_sales →
      ∃ fresh : List String,
        (osPassStep cfg s p).2 = s.2 ++ fresh
        ∧ fresh.Nodup
        ∧ (∀ x ∈ fresh, x ∈ (osPassStep cfg s p).1.known_sales)
        ∧ (∀ x ∈ s.1.known_sales, x ∈ (osPassStep cfg s p).1.known_sales)
        ∧ ((osPassStep cfg s p).1.known_sales).length
            ≤ s.1.known_sales.length + p.2.length
        ∧ (∀ x ∈ fresh, x ∉ s.1.known_sales) := by
  intro s p hcap
  obtain ⟨A, B, C, D, E⟩ := os_batch_inv cfg p.1 p.2 s.1 hcap
  exact ⟨(process_opensea_sale_events cfg p.1 p.2 s.1).2, rfl, A, B, C, D, E⟩

/-- Claim C1 as amended: an `event_id` is never accepted twice for the
same collection+category as long as it is not evicted from that
category's bounded ledger in between — whenever a category's capacity
covers its initial ledger size plus all records fetched across the
passes, the ids accepted for that category over any sequence of
reconciliation passes are pairwise distinct, and an id already in the
ledger is never accepted again.  This holds for all four category
pipelines: Magic Eden sales, mints and burns (full passes through
`check_activities_for_collection`, including the duplicate-in-one-batch
tie-break), and OpenSea sales.  Without the capacity proviso, eviction
can re-open the door, as `c1_counterexample` shows. -/
theorem c1_no_double_accept (cfg : CollConfig)
    (passes : List (Int × Option (List Activity))) (st : CollState)
    (osPassList : List (Int × List OsEvent)) (ts : TradeState)
    (hs : st.known_sales.length
        + (passes.map (fun p => ((p.2).getD []).length)).sum ≤ cfg.max_known_sales)
    (hm : st.known_mints.length
        + (passes.map (fun p => ((p.2).getD []).length)).sum ≤ cfg.max_known_mints)
    (hb : st.known_burns.length
        + (passes.map (fun p => ((p.2).getD []).length)).sum ≤ cfg.max_known_burns)
    (hos : ts.known_sales.length
        + (osPassList.map (fun p => p.2.length)).sum ≤ cfg.max_known_sales) :
    ((runPasses cfg passes st).2.1.Nodup
      ∧ ∀ a ∈ st.known_sales, a ∉ (runPasses cfg passes st).2.1)
    ∧ ((runPasses cfg passes st).2.2.1.Nodup
      ∧ ∀ a ∈ st.known_mints, a ∉ (runPasses cfg passes st).2.2.1)
    ∧ ((runPasses cfg passes st).2.2.2.Nodup
      ∧ ∀ a ∈ st.known_burns, a ∉ (runPasses cfg passes st).2.2.2)
    ∧ ((osPasses cfg osPassList ts).2.Nodup
      ∧ ∀ a ∈ ts.known_sales, a ∉ (osPasses cfg osPassList ts).2) := by
  simp only [runPasses, osPasses]
  refine ⟨?_, ?_, ?_, ?_⟩
  · obtain ⟨r1, _, _, _, r5⟩ :=
      accept_fold_inv
        (fun s : CollState × (List String × List String × List String) =>
          s.1.known_sales)
        (fun s => s.2.1) (runPassStep cfg) (fun p => ((p.2).getD []).length)
        cfg.max_known_sales (runPassStep_sales_shape cfg) passes
        (st, ([], [], [])) hs List.nodup_nil (by simp)
    refine ⟨r1, ?_⟩
    intro a ha hacc
    rcases r5 a hacc with h' | h'
    · exact absurd h' (List.not_mem_nil a)
    · exact h' ha
  · obtain ⟨r1, _, _, _, r5⟩ :=
      accept_fold_inv
        (fun s : CollState × (List String × List String × List String) =>
          s.1.known_mints)
        (fun s => s.2.2.1) (runPassStep cfg) (fun p => ((p.2).getD []).length)
        cfg.max_known_mints (runPassStep_mints_shape cfg) passes
        (st, ([], [], [])) hm List.nodup_nil (by simp)
    refine ⟨r1, ?_⟩
    intro a ha hacc
    rcases r5 a hacc with h' | h'
    · exact absurd h' (List.not_mem_nil a)
    · exact h' ha
  · obtain ⟨r1, _, _, _, r5⟩ :=
      accept_fold_inv
        (fun s : CollState × (List String × List String × List String) =>
          s.1.known_burns)
        (fun s => s.2.2.2) (runPassStep cfg) (fun p => ((p.2).getD []).length)
        cfg.max_known_burns (runPassStep_burns_shape cfg) passes
        (st, ([], [], [])) hb List.nodup_nil (by simp)
    refine ⟨r1, ?_⟩
    intro a ha hacc
    rcases r5 a hacc with h' | h'
    · exact absurd h' (List.not_mem_nil a)
    · exact h' ha
  · obtain ⟨r1, _, _, _, r5⟩ :=
      accept_fold_inv
        (fun s : TradeState × List String => s.1.known_sales)
        (fun s => s.2) (osPassStep cfg) (fun p => p.2.length)
        cfg.max_known_sales (osPassStep_shape cfg) osPassList
        (ts, []) hos List.nodup_nil (by simp)
    refine ⟨r1, ?_⟩
    intro a ha hacc
    rcases r5 a hacc with h' | h'
    · exact absurd h' (List.not_mem_nil a)
    · exact h' ha

/-- Witness for `c1_no_double_accept`: one Magic Eden pass carrying a
trade and a mint, and one OpenSea pass carrying a sale, all within
capacity. -/
theorem c1_no_double_accept_witness :
    (state0.known_sales.length
      + ([((1000000000 : Int), some [trade1, mintA])].map
          (fun p => ((p.2).getD []).length)).sum ≤ cfg0.max_known_sales)
    ∧ (runPasses cfg0 [((1000000000 : Int), some [trade1, mintA])] state0).2.1.Nodup
    ∧ (osPasses cfg0 [((1000000000 : Int), [osSale9])] ⟨[], []⟩).2.Nodup :=
  ⟨by decide,
   (c1_no_double_accept cfg0 [((1000000000 : Int), some [trade1, mintA])] state0
     [((1000000000 : Int), [osSale9])] ⟨[], []⟩
     (by decide) (by decide) (by decide) (by decide)).1.1,
   (c1_no_double_accept cfg0 [((1000000000 : Int), some [trade1, mintA])] state0
     [((1000000000 : Int), [osSale9])] ⟨[], []⟩
     (by decide) (by decide) (by decide) (by decide)).2.2.2.1⟩

/-- Claim C1 counterexample: with mint capacity 1, the batch
`[mintA, mintB, mintA]` in a single pass accepts the event id `1-0xa`
twice — after `mintB`'s acceptance evicts it, the duplicate record passes
the membership check again.  This refutes both the universal
no-double-accept statement and the claim's in-batch tie-break clause. -/
theorem c1_counterexample :
    (check_activities_for_collection cfgMintMax1 1000000000
      (some [mintA, mintB, mintA]) state0).2.acceptedMints
        = ["1-0xa", "2-0xb", "1-0xa"]
    ∧ ((check_activities_for_collection cfgMintMax1 1000000000
        (some [mintA, mintB, mintA]) state0).2.acceptedMints).count "1-0xa" = 2 := by
  decide

end NftBot

namespace NftBot

/-! ### Claim C7 -/

/-- Splitting at a newline that follows a newline-free chunk yields that
chunk as one line. -/
theorem splitLines_append (a b : List Char) (ha : '\n' ∉ a) :
    splitLines (a ++ '\n' :: b) = a :: splitLines b := by
  induction a with
  | nil => simp [splitLines]
  | cons c cs ih =>
    simp only [List.mem_cons, not_or] at ha
    rw [List.cons_append]
    simp only [splitLines]
    rw [if_neg (fun h => ha.1 h.symm), ih ha.2]

/-- A line accepted by the validator is nonempty. -/
theorem valid_ne_nil {l : List Char} (h : validIdChars l = true) : l ≠ [] := by
  intro he
  subst he
  simp [validIdChars, splitFirstHyphen] at h

/-- Mapping a function that fixes every element is the identity. -/
theorem map_self {α : Type} (f : α → α) :
    ∀ (l : List α), (∀ x ∈ l, f x = x) → l.map f = l := by
  intro l
  induction l with
  | nil => intro _; rfl
  | cons a t ih =>
    intro h
    simp only [List.map_cons]
    rw [h a (List.mem_cons_self a t), ih (fun x hx => h x (List.mem_cons_of_mem a hx))]

/-- The lines written by `saveChars` split back into the saved chunks
(plus the empty trailer after the final newline). -/
theorem splitLines_save (ids : List (List Char)) (h : ∀ id ∈ ids, '\n' ∉ id) :
    splitLines (saveChars ids) = ids ++ [[]] := by
  induction ids with
  | nil => simp [saveChars, splitLines]
  | cons id rest ih =>
    rw [saveChars, splitLines_append id _ (h id (List.mem_cons_self id rest)),
      ih (fun x hx => h x (List.mem_cons_of_mem id hx))]
    rfl

/-- Reading back a saved file recovers exactly the saved lines when each
is newline-free, strip-invariant and nonempty. -/
theorem loadLines_save (ids : List (List Char))
    (hn : ∀ id ∈ ids, '\n' ∉ id) (hs : ∀ id ∈ ids, pyStripChars id = id)
    (hne : ∀ id ∈ ids, id ≠ []) :
    loadLinesChars (saveChars ids) = ids := by
  rw [loadLinesChars, splitLines_save ids hn, List.map_append,
    map_self pyStripChars ids hs]
  have h0 : ([[]] : List (List Char)).map pyStripChars = [[]] := rfl
  rw [h0, List.filter_append]
  have h1 : List.filter (fun l => !l.isEmpty) ids = ids := by
    rw [List.filter_eq_self]
    intro a ha
    cases hcase : a with
    | nil => exact absurd hcase (hne a ha)
    | cons c t => rfl
  have h2 : List.filter (fun l => !l.isEmpty) ([[]] : List (List Char)) = [] := rfl
  rw [h1, h2, List.append_nil]

/-- Persist-then-reload round trip under the strengthened proviso. -/
theorem load_save_roundtrip (ids : List String)
    (h : ∀ id ∈ ids, is_valid_id_format id = true
          ∧ pyStripChars id.data = id.data ∧ '\n' ∉ id.data) :
    load_ids (save_ids ids) = (ids, none) := by
  have hlines : loadLinesChars (saveChars (ids.map String.data)) = ids.map String.data := by
    apply loadLines_save
    · intro l hl
      obtain ⟨s, hsmem, rfl⟩ := List.mem_map.mp hl
      exact (h s hsmem).2.2
    · intro l hl
      obtain ⟨s, hsmem, rfl⟩ := List.mem_map.mp hl
      exact (h s hsmem).2.1
    · intro l hl
      obtain ⟨s, hsmem, rfl⟩ := List.mem_map.mp hl
      exact valid_ne_nil (h s hsmem).1
  have hdata : (String.mk (saveChars (ids.map String.data))).data
      = saveChars (ids.map String.data) := rfl
  have hmk : (ids.map String.data).map String.mk = ids := by
    rw [List.map_map]
    exact map_self _ ids (fun s _ => rfl)
  have hfilter : ids.filter is_valid_id_format = ids := by
    rw [List.filter_eq_self]
    intro a ha
    exact (h a ha).1
  rw [load_ids, save_ids, hdata, hlines, hmk, hfilter]
  rw [if_neg (lt_irrefl ids.length)]

/-- The cleaned sequence returned by `load_ids`. -/
theorem load_ids_fst (content : String) :
    (load_ids content).1
      = ((loadLinesChars content.data).map String.mk).filter is_valid_id_format := by
  rw [load_ids]
  split <;> rfl

/-- Claim C7 counterexample: the id `"1-0xa\nb"` satisfies the id-shape
contract (`1` is numeric, the remainder after the first hyphen starts
with `0x`), yet persisting and reloading the one-element ledger does not
return it: the embedded newline splits it into two lines and the second
is dropped.  This refutes the round-trip claim under the claim's own
proviso. -/
theorem c7_counterexample :
    is_valid_id_format "1-0xa\nb" = true
    ∧ (load_ids (save_ids ["1-0xa\nb"])).1 = ["1-0xa"]
    ∧ ¬ (load_ids (save_ids ["1-0xa\nb"])).1 = ["1-0xa\nb"] := by
  decide

/-- Claim C7 as amended: the persist/reload round trip yields the
identical ordered sequence provided every id satisfies the shape contract
AND is a single clean line (no embedded newline, no surrounding
whitespace); in general every reloaded id satisfies the shape contract
(invalid lines are absent), and whenever something was dropped the
cleaned sequence is immediately re-persisted. -/
theorem c7_roundtrip (ids : List String)
    (h : ∀ id ∈ ids, is_valid_id_format id = true
          ∧ pyStripChars id.data = id.data ∧ '\n' ∉ id.data) :
    load_ids (save_ids ids) = (ids, none)
    ∧ (∀ (content : String), ∀ id ∈ (load_ids content).1,
        is_valid_id_format id = true)
    ∧ (∀ content : String, (load_ids content).2 = none
        ∨ (load_ids content).2 = some (save_ids (load_ids content).1)) := by
  refine ⟨load_save_roundtrip ids h, ?_, ?_⟩
  · intro content id hid
    rw [load_ids_fst] at hid
    exact List.of_mem_filter hid
  · intro content
    rw [load_ids]
    split
    · right
      rfl
    · left
      rfl

/-- Witness for `c7_roundtrip` at a one-element clean ledger. -/
theorem c7_roundtrip_witness :
    (∀ id ∈ ["1-0xa"], is_valid_id_format id = true
      ∧ pyStripChars id.data = id.data ∧ '\n' ∉ id.data)
    ∧ load_ids (save_ids ["1-0xa"]) = (["1-0xa"], none) :=
  ⟨by decide, (c7_roundtrip ["1-0xa"] (by decide)).1⟩

end NftBot

namespace NftBot

/-! ### Claim C8 -/

/-- `save_ids` of a cons is the line followed by the rest of the file. -/
theorem save_ids_cons (id : String) (rest : List String) :
    save_ids (id :: rest) = id ++ "\n" ++ save_ids rest := by
  apply String.ext
  show id.data ++ '\n' :: saveChars (rest.map String.data) = _
  have hnl : ("\n" : String).data = ['\n'] := rfl
  simp [String.data_append, hnl, save_ids]

/-- Left-folding the line writes equals prepending to the saved content. -/
theorem save_foldl (ids : List String) :
    ∀ a : String, ids.foldl (fun acc id => acc ++ id ++ "\n") a = a ++ save_ids ids := by
  induction ids with
  | nil =>
    intro a
    have h0 : save_ids [] = "" := rfl
    rw [List.foldl_nil, h0]
    exact (String.append_empty a).symm
  | cons id rest ih =>
    intro a
    rw [List.foldl_cons, ih, save_ids_cons]
    simp [String.append_assoc]

/-- The first observable state of the write is the truncated file. -/
theorem scanl_head {α β : Type} (f : β → α → β) (l : List α) (b : β) :
    (List.scanl f b l).head? = some b := by
  cases l <;> simp [List.scanl]

/-- The last observable state of the write is the fold of all writes. -/
theorem scanl_getLast {α β : Type} (f : β → α → β) :
    ∀ (l : List α) (b : β), (List.scanl f b l).getLast? = some (l.foldl f b) := by
  intro l
  induction l with
  | nil => intro b; rfl
  | cons a t ih =>
    intro b
    rw [List.scanl]
    cases hl : List.scanl f (f b a) t with
    | nil => exact absurd hl (by cases t <;> simp [List.scanl])
    | cons c cs =>
      rw [List.getLast?_cons_cons, ← hl, ih (f b a), List.foldl_cons]

/-- Claim C8 counterexample: while `save_ids` rewrites the ledger file of
prior content `"1-0xa\n"` with the single id `2-0xb`, an intermediate
observable state of the target file (the empty truncated file) is neither
the prior content nor the final content — the write is not atomic and a
concurrent reader can observe a partial/truncated file. -/
theorem c8_counterexample :
    ¬ (∀ s ∈ saveIdsStates ["2-0xb"], s = "1-0xa\n" ∨ s = "2-0xb\n") := by
  decide

/-- Claim C8 as amended: `save_ids` persists by opening the target file
in truncate mode and writing the ids line by line in place — the first
observable state of the target file is the empty (truncated) file and
the final observable state is exactly the saved sequence; there is no
write-temp-then-rename step, so intermediate partial states are
observable. -/
theorem c8_in_place_rewrite (ids : List String) :
    (saveIdsStates ids).head? = some ""
    ∧ (saveIdsStates ids).getLast? = some (save_ids ids) := by
  constructor
  · exact scanl_head _ ids ""
  · rw [saveIdsStates, scanl_getLast, save_foldl ids ""]
    have h0 : ("" : String) ++ save_ids ids = save_ids ids := by
      apply String.ext
      simp [String.data_append]
    rw [h0]

/-! ### Claim C9 -/

/-- Claim C9: the pass processes the time-filtered batch in reverse
order, so a batch arriving newest-first (pairwise descending timestamps)
is processed oldest-first (pairwise ascending timestamps); concretely,
two trades of the same token arriving newest-first are reordered to
`[trade5a, trade5b]` and the chronologically first one wins the cooldown
window: only `5-0xa` is accepted. -/
theorem c9_chronological_order (wm : Int) (acts : List Activity)
    (h : acts.Pairwise (fun a b => pyStrLe b.timestamp a.timestamp = true)) :
    (passBatch wm acts).Pairwise (fun a b => pyStrLe a.timestamp b.timestamp = true)
    ∧ passBatch 0 [trade5b, trade5a] = [trade5a, trade5b]
    ∧ (check_activities_for_collection cfg0 1000000000 (some [trade5b, trade5a])
        state0).2.acceptedSales = ["5-0xa"]
    ∧ (check_activities_for_collection cfg0 1000000000 (some [trade5b, trade5a])
        state0).1.known_sales = ["5-0xa"] := by
  refine ⟨?_, by decide, by decide, by decide⟩
  rw [passBatch, List.pairwise_reverse]
  exact List.Pairwise.filter _ h

/-- Witness for `c9_chronological_order` at the concrete newest-first
two-trade batch. -/
theorem c9_chronological_order_witness :
    [trade5b, trade5a].Pairwise (fun a b => pyStrLe b.timestamp a.timestamp = true)
    ∧ (passBatch 0 [trade5b, trade5a]).Pairwise
        (fun a b => pyStrLe a.timestamp b.timestamp = true) := by
  have hp : [trade5b, trade5a].Pairwise
      (fun a b => pyStrLe b.timestamp a.timestamp = true) := by
    refine List.Pairwise.cons ?_ (List.Pairwise.cons ?_ List.Pairwise.nil)
    · intro a ha
      rw [List.mem_singleton] at ha
      subst ha
      decide
    · intro a ha
      exact absurd ha (List.not_mem_nil a)
  exact ⟨hp, (c9_chronological_order 0 [trade5b, trade5a] hp).1⟩

end NftBot
